import Mathlib

/-!
Verification of the GPX elevation-profile CLI (`jmt_profile/cli.py`).

The core of the program is `parse_gpx_files`: it walks a list of GPX files
(one per hiking day), flattens each file's tracks/segments/points in order,
and folds a running state `(total_distance, prev_point)` over the whole
multi-day point stream, emitting one `ElevationPoint(day, distance,
elevation)` per input point.  The 2D geodesic distance between two points is
computed by the external `gpxpy` collaborator (`point.distance_2d(prev)`), so
it is modelled here as an explicit function parameter `dist : Dist2D`
(returning meters, as the library does); the code divides by 1000 to store
kilometers.  Real number arithmetic is modelled over `ℚ` so that every
definition is executable.

`main` is modelled in its three relevant parts: the eager file-existence
check (which returns exit code 1 on the first missing file), the day-grouping
dictionary (insertion-ordered keys, per-key append), and the render-time
unit conversion / colormap sampling.
-/

namespace JmtProfile

/-- A raw GPX track point as exposed by the external decoder: geographic
coordinates plus an elevation scalar in meters. -/
structure RawPoint where
  latitude : ℚ
  longitude : ℚ
  elevation : ℚ
deriving DecidableEq

/-- One GPX segment: an ordered list of points. -/
structure GPXSegment where
  points : List RawPoint
deriving DecidableEq

/-- One GPX track: an ordered list of segments. -/
structure GPXTrack where
  segments : List GPXSegment
deriving DecidableEq

/-- One decoded GPX file: an ordered list of tracks. -/
structure GPX where
  tracks : List GPXTrack
deriving DecidableEq

/-- The `ElevationPoint` named tuple from `cli.py`: day index, cumulative distance (km),
elevation (m). -/
structure ElevationPoint where
  day : ℕ
  distance : ℚ
  elevation : ℚ
deriving DecidableEq

/-- The external 2D geodesic distance operation `p.distance_2d(q)`, in
meters.  `gpxpy` is an external collaborator, so the distance function is a
parameter of the model. -/
abbrev Dist2D := RawPoint → RawPoint → ℚ

/-- The mutable state of the loop in `parse_gpx_files`:
`elevation_points`, `total_distance`, `prev_point`. -/
structure ParseState where
  elevation_points : List ElevationPoint
  total_distance : ℚ
  prev_point : Option RawPoint
deriving DecidableEq

/-- The body of the innermost loop of `parse_gpx_files`: if `prev_point` is
set, add `point.distance_2d(prev_point) / 1000` to the running total, then
record the point and emit an `ElevationPoint`. -/
def processPoint (dist : Dist2D) (day : ℕ) (st : ParseState) (point : RawPoint) : ParseState :=
  let total_distance :=
    match st.prev_point with
    | some prev => st.total_distance + dist point prev / 1000
    | none => st.total_distance
  { elevation_points := st.elevation_points ++
      [{ day := day, distance := total_distance, elevation := point.elevation }],
    total_distance := total_distance,
    prev_point := some point }

/-- Loop `for point in segment.points:` of the source. -/
def processSegment (dist : Dist2D) (day : ℕ) (st : ParseState) (segment : GPXSegment) :
    ParseState :=
  segment.points.foldl (processPoint dist day) st

/-- Loop `for segment in track.segments:` of the source. -/
def processTrack (dist : Dist2D) (day : ℕ) (st : ParseState) (track : GPXTrack) : ParseState :=
  track.segments.foldl (processSegment dist day) st

/-- Loop `for track in gpx.tracks:` of the source. -/
def processFile (dist : Dist2D) (day : ℕ) (st : ParseState) (gpx : GPX) : ParseState :=
  gpx.tracks.foldl (processTrack dist day) st

/-- Function `parse_gpx_files` from `cli.py`: enumerate the files (index = day),
thread the accumulator state through every point of every file, and return
the emitted `ElevationPoint` list.  The `use_imperial` argument is accepted
but never used by the source function. -/
def parse_gpx_files (dist : Dist2D) (gpx_files : List GPX) (use_imperial : Bool) :
    List ElevationPoint :=
  (gpx_files.enum.foldl (fun st df => processFile dist df.1 st df.2)
    { elevation_points := [], total_distance := 0, prev_point := none }).elevation_points

/-! ### Flattened reference formulation

The nested `for` loops traverse exactly the concatenation of all points of
all segments of all tracks of each file, tagged with the file's day index.
We now define that flattened traversal and a structurally recursive
accumulator over it, and prove `parse_gpx_files` equal to it.  All further
reasoning is by induction on the flat list. -/

/-- All points of one GPX file, in traversal order (tracks, then segments,
then points). -/
def filePoints (gpx : GPX) : List RawPoint :=
  gpx.tracks.flatMap (fun t => t.segments.flatMap (fun s => s.points))

/-- A day-tagged raw point. -/
abbrev Tagged := ℕ × RawPoint

/-- The points of one file, tagged with its day index. -/
def tagFile (day : ℕ) (gpx : GPX) : List Tagged :=
  (filePoints gpx).map (fun p => (day, p))

/-- The tagged points of a file list, with day indices starting at `k`. -/
def taggedFrom (k : ℕ) : List GPX → List Tagged
  | [] => []
  | f :: fs => tagFile k f ++ taggedFrom (k + 1) fs

/-- The full day-tagged traversal of the input: file `i` contributes its
points tagged with day `i`. -/
def taggedPoints (gpx_files : List GPX) : List Tagged :=
  taggedFrom 0 gpx_files

/-- One accumulation step for the running total: add
`dist point prev / 1000` when a previous point exists. -/
def stepTotal (dist : Dist2D) (prev : Option RawPoint) (total : ℚ) (point : RawPoint) : ℚ :=
  match prev with
  | some q => total + dist point q / 1000
  | none => total

/-- Structural accumulator: the `ElevationPoint`s emitted when folding the
parse state over a tagged point list, starting from `prev`/`total`. -/
def accumAux (dist : Dist2D) : Option RawPoint → ℚ → List Tagged → List ElevationPoint
  | _, _, [] => []
  | prev, total, dp :: rest =>
    { day := dp.1, distance := stepTotal dist prev total dp.2, elevation := dp.2.elevation } ::
      accumAux dist (some dp.2) (stepTotal dist prev total dp.2) rest

/-- The final `(prev_point, total_distance)` state after folding over a
tagged point list. -/
def accumState (dist : Dist2D) : Option RawPoint → ℚ → List Tagged →
    Option RawPoint × ℚ
  | prev, total, [] => (prev, total)
  | prev, total, dp :: rest => accumState dist (some dp.2) (stepTotal dist prev total dp.2) rest

/-- One fold step over a tagged point. -/
def stepTagged (dist : Dist2D) (st : ParseState) (dp : Tagged) : ParseState :=
  processPoint dist dp.1 st dp.2

lemma processPoint_eq (dist : Dist2D) (day : ℕ) (st : ParseState) (point : RawPoint) :
    processPoint dist day st point =
      { elevation_points := st.elevation_points ++
          [{ day := day, distance := stepTotal dist st.prev_point st.total_distance point,
             elevation := point.elevation }],
        total_distance := stepTotal dist st.prev_point st.total_distance point,
        prev_point := some point } := by
  cases h : st.prev_point <;> simp [processPoint, stepTotal, h]

lemma foldl_stepTagged (dist : Dist2D) (l : List Tagged) : ∀ st : ParseState,
    l.foldl (stepTagged dist) st =
      { elevation_points :=
          st.elevation_points ++ accumAux dist st.prev_point st.total_distance l,
        total_distance := (accumState dist st.prev_point st.total_distance l).2,
        prev_point := (accumState dist st.prev_point st.total_distance l).1 } := by
  induction l with
  | nil => intro st; simp [accumAux, accumState]
  | cons dp rest ih =>
    intro st
    rw [List.foldl_cons, ih]
    simp [stepTagged, processPoint_eq, accumAux, accumState, List.append_assoc]

lemma foldl_flatMap {α β γ : Type} (f : β → α → β) (g : γ → List α) :
    ∀ (l : List γ) (init : β),
      (l.flatMap g).foldl f init = l.foldl (fun st x => (g x).foldl f st) init := by
  intro l
  induction l with
  | nil => intro init; simp
  | cons x xs ih => intro init; simp [List.foldl_append, ih]

lemma processSegment_eq (dist : Dist2D) (day : ℕ) (st : ParseState) (s : GPXSegment) :
    processSegment dist day st s =
      (s.points.map (fun p => (day, p))).foldl (stepTagged dist) st := by
  simp [processSegment, List.foldl_map, stepTagged]

lemma processTrack_eq (dist : Dist2D) (day : ℕ) (st : ParseState) (t : GPXTrack) :
    processTrack dist day st t =
      ((t.segments.flatMap (fun s => s.points)).map (fun p => (day, p))).foldl
        (stepTagged dist) st := by
  simp only [processTrack, List.map_flatMap, foldl_flatMap]
  exact List.foldl_ext _ _ _ (fun st s _ => processSegment_eq dist day st s)

lemma processFile_eq (dist : Dist2D) (day : ℕ) (st : ParseState) (gpx : GPX) :
    processFile dist day st gpx = (tagFile day gpx).foldl (stepTagged dist) st := by
  simp only [processFile, tagFile, filePoints, List.map_flatMap, foldl_flatMap]
  exact List.foldl_ext _ _ _
    (fun st t _ => by rw [processTrack_eq]; simp only [List.map_flatMap, foldl_flatMap])

lemma fold_enumFrom (dist : Dist2D) : ∀ (files : List GPX) (k : ℕ) (st : ParseState),
    (List.enumFrom k files).foldl (fun st df => processFile dist df.1 st df.2) st =
      (taggedFrom k files).foldl (stepTagged dist) st := by
  intro files
  induction files with
  | nil => intro k st; simp [taggedFrom]
  | cons f fs ih =>
    intro k st
    simp only [List.enumFrom, List.foldl_cons, taggedFrom, List.foldl_append]
    rw [ih]
    simp only [processFile_eq]

/-- Function `parse_gpx_files` is the structural accumulator applied to the flattened
day-tagged traversal of the input files. -/
theorem parse_eq_accum (dist : Dist2D) (files : List GPX) (b : Bool) :
    parse_gpx_files dist files b = accumAux dist none 0 (taggedPoints files) := by
  unfold parse_gpx_files taggedPoints
  rw [show files.enum = List.enumFrom 0 files from rfl, fold_enumFrom, foldl_stepTagged]
  simp

/-! ### Core lemmas about the flat accumulator -/

lemma accumState_append (dist : Dist2D) (l₁ : List Tagged) :
    ∀ (l₂ : List Tagged) (prev : Option RawPoint) (total : ℚ),
      accumState dist prev total (l₁ ++ l₂) =
        accumState dist (accumState dist prev total l₁).1 (accumState dist prev total l₁).2 l₂ := by
  induction l₁ with
  | nil => intro l₂ prev total; simp [accumState]
  | cons dp rest ih => intro l₂ prev total; simp [accumState, ih]

lemma accumAux_append (dist : Dist2D) (l₁ : List Tagged) :
    ∀ (l₂ : List Tagged) (prev : Option RawPoint) (total : ℚ),
      accumAux dist prev total (l₁ ++ l₂) =
        accumAux dist prev total l₁ ++
          accumAux dist (accumState dist prev total l₁).1 (accumState dist prev total l₁).2 l₂ := by
  induction l₁ with
  | nil => intro l₂ prev total; simp [accumAux, accumState]
  | cons dp rest ih => intro l₂ prev total; simp [accumAux, accumState, ih]

lemma accumAux_length (dist : Dist2D) (l : List Tagged) :
    ∀ (prev : Option RawPoint) (total : ℚ), (accumAux dist prev total l).length = l.length := by
  induction l with
  | nil => intro prev total; simp [accumAux]
  | cons dp rest ih => intro prev total; simp [accumAux, ih]

lemma accumAux_map_day (dist : Dist2D) (l : List Tagged) :
    ∀ (prev : Option RawPoint) (total : ℚ),
      (accumAux dist prev total l).map (fun e => e.day) = l.map Prod.fst := by
  induction l with
  | nil => intro prev total; simp [accumAux]
  | cons dp rest ih => intro prev total; simp [accumAux, ih]

lemma accumAux_map_day_elevation (dist : Dist2D) (l : List Tagged) :
    ∀ (prev : Option RawPoint) (total : ℚ),
      (accumAux dist prev total l).map (fun e => (e.day, e.elevation)) =
        l.map (fun dp => (dp.1, dp.2.elevation)) := by
  induction l with
  | nil => intro prev total; simp [accumAux]
  | cons dp rest ih => intro prev total; simp [accumAux, ih]

lemma accumState_fst (dist : Dist2D) (l : List Tagged) :
    ∀ (prev : Option RawPoint) (total : ℚ) (dp : Tagged), l.getLast? = some dp →
      (accumState dist prev total l).1 = some dp.2 := by
  induction l with
  | nil => intro prev total dp h; simp at h
  | cons x rest ih =>
    intro prev total dp h
    cases rest with
    | nil =>
      simp at h
      simp [accumState, h]
    | cons y ys =>
      rw [List.getLast?_cons_cons] at h
      simpa [accumState] using ih _ _ dp h

lemma accumAux_getLast (dist : Dist2D) (l : List Tagged) :
    ∀ (prev : Option RawPoint) (total : ℚ) (dp : Tagged), l.getLast? = some dp →
      (accumAux dist prev total l).getLast? =
        some { day := dp.1, distance := (accumState dist prev total l).2,
               elevation := dp.2.elevation } := by
  induction l with
  | nil => intro prev total dp h; simp at h
  | cons x rest ih =>
    intro prev total dp h
    cases rest with
    | nil =>
      simp at h
      simp [accumAux, accumState, h]
    | cons y ys =>
      rw [List.getLast?_cons_cons] at h
      have hrec := ih (some x.2) (stepTotal dist prev total x.2) dp h
      rw [show accumAux dist prev total (x :: y :: ys) =
            { day := x.1, distance := stepTotal dist prev total x.2,
              elevation := x.2.elevation } ::
              { day := y.1,
                distance := stepTotal dist (some x.2) (stepTotal dist prev total x.2) y.2,
                elevation := y.2.elevation } ::
              accumAux dist (some y.2)
                (stepTotal dist (some x.2) (stepTotal dist prev total x.2) y.2) ys from rfl,
          List.getLast?_cons_cons]
      rw [show accumState dist prev total (x :: y :: ys) =
            accumState dist (some x.2) (stepTotal dist prev total x.2) (y :: ys) from rfl]
      exact hrec

lemma stepTotal_le (dist : Dist2D) (hdist : ∀ p q, 0 ≤ dist p q)
    (prev : Option RawPoint) (total : ℚ) (point : RawPoint) :
    total ≤ stepTotal dist prev total point := by
  cases prev with
  | none => simp [stepTotal]
  | some q =>
    have h1000 : (0 : ℚ) ≤ dist point q / 1000 := by
      have := hdist point q
      positivity
    simp only [stepTotal]
    linarith

lemma accumAux_total_le (dist : Dist2D) (hdist : ∀ p q, 0 ≤ dist p q) (l : List Tagged) :
    ∀ (prev : Option RawPoint) (total : ℚ) (e : ElevationPoint),
      e ∈ accumAux dist prev total l → total ≤ e.distance := by
  induction l with
  | nil => intro prev total e he; simp [accumAux] at he
  | cons dp rest ih =>
    intro prev total e he
    have hstep := stepTotal_le dist hdist prev total dp.2
    rcases (List.mem_cons).1 he with h | h
    · rw [h]; exact hstep
    · exact le_trans hstep (ih _ _ _ h)

lemma accumAux_chain' (dist : Dist2D) (hdist : ∀ p q, 0 ≤ dist p q) (l : List Tagged) :
    ∀ (prev : Option RawPoint) (total : ℚ),
      List.Chain' (fun a b => a.distance ≤ b.distance) (accumAux dist prev total l) := by
  induction l with
  | nil => intro prev total; simp [accumAux]
  | cons dp rest ih =>
    intro prev total
    rw [show accumAux dist prev total (dp :: rest) =
          { day := dp.1, distance := stepTotal dist prev total dp.2,
            elevation := dp.2.elevation } ::
            accumAux dist (some dp.2) (stepTotal dist prev total dp.2) rest from rfl]
    refine List.chain'_cons'.2 ⟨?_, ih _ _⟩
    intro y hy
    exact accumAux_total_le dist hdist rest _ _ y (List.mem_of_mem_head? hy)

lemma accumAux_filter_self (dist : Dist2D) (d : ℕ) (l : List Tagged)
    (hl : ∀ dp ∈ l, dp.1 = d) :
    ∀ (prev : Option RawPoint) (total : ℚ),
      (accumAux dist prev total l).filter (fun e => e.day == d) =
        accumAux dist prev total l := by
  induction l with
  | nil => intro prev total; simp [accumAux]
  | cons dp rest ih =>
    intro prev total
    have hd : dp.1 = d := hl dp (List.mem_cons_self dp rest)
    have hrest : ∀ x ∈ rest, x.1 = d := fun x hx => hl x (List.mem_cons_of_mem dp hx)
    simp [accumAux, List.filter, hd, ih hrest]

lemma accumAux_filter_nil (dist : Dist2D) (d : ℕ) (l : List Tagged)
    (hl : ∀ dp ∈ l, dp.1 ≠ d) :
    ∀ (prev : Option RawPoint) (total : ℚ),
      (accumAux dist prev total l).filter (fun e => e.day == d) = [] := by
  induction l with
  | nil => intro prev total; simp [accumAux]
  | cons dp rest ih =>
    intro prev total
    have hd : dp.1 ≠ d := hl dp (List.mem_cons_self dp rest)
    have hrest : ∀ x ∈ rest, x.1 ≠ d := fun x hx => hl x (List.mem_cons_of_mem dp hx)
    have hbeq : (dp.1 == d) = false := by simp [hd]
    simp [accumAux, List.filter, hbeq, ih hrest]

/-! ### Lemmas about the tagged traversal -/

lemma taggedFrom_append (A : List GPX) :
    ∀ (B : List GPX) (k : ℕ),
      taggedFrom k (A ++ B) = taggedFrom k A ++ taggedFrom (k + A.length) B := by
  induction A with
  | nil => intro B k; simp [taggedFrom]
  | cons f fs ih =>
    intro B k
    have h1 : taggedFrom k ((f :: fs) ++ B) = tagFile k f ++ taggedFrom (k + 1) (fs ++ B) := rfl
    rw [h1, ih]
    have h2 : k + 1 + fs.length = k + (f :: fs).length := by
      simp only [List.length_cons]
      omega
    rw [h2]
    simp [taggedFrom, List.append_assoc]

lemma mem_taggedFrom_bounds (files : List GPX) :
    ∀ (k : ℕ) (x : Tagged), x ∈ taggedFrom k files → k ≤ x.1 ∧ x.1 < k + files.length := by
  induction files with
  | nil => intro k x hx; simp [taggedFrom] at hx
  | cons f fs ih =>
    intro k x hx
    rcases List.mem_append.1 hx with h | h
    · rcases List.mem_map.1 h with ⟨p, _, hp⟩
      rw [← hp]
      simp
    · have := ih (k + 1) x h
      constructor <;> [omega; (simp only [List.length_cons]; omega)]

lemma taggedFrom_eq_nil (files : List GPX) :
    ∀ k : ℕ, taggedFrom k files = [] ↔ ∀ f ∈ files, filePoints f = [] := by
  induction files with
  | nil => intro k; simp [taggedFrom]
  | cons f fs ih =>
    intro k
    simp [taggedFrom, tagFile, ih]

lemma map_tag_filter_self (l : List RawPoint) (d : ℕ) :
    (l.map (fun p => (d, p))).filter (fun dp => dp.1 == d) = l.map (fun p => (d, p)) := by
  induction l with
  | nil => simp
  | cons p ps ih => simp [List.filter, ih]

lemma map_tag_filter_ne (l : List RawPoint) (d d' : ℕ) (h : d ≠ d') :
    (l.map (fun p => (d, p))).filter (fun dp => dp.1 == d') = [] := by
  induction l with
  | nil => simp
  | cons p ps ih =>
    have hb : (d == d') = false := by simp [h]
    simp [List.filter, hb, ih]

lemma taggedFrom_filter_lt (files : List GPX) (k d : ℕ) (hdk : d < k) :
    (taggedFrom k files).filter (fun dp => dp.1 == d) = [] := by
  rw [List.filter_eq_nil_iff]
  intro x hx
  have hb := mem_taggedFrom_bounds files k x hx
  simp only [beq_iff_eq]
  omega

lemma taggedFrom_filter_chunk (files : List GPX) :
    ∀ (k j : ℕ) (hj : j < files.length),
      (taggedFrom k files).filter (fun dp => dp.1 == k + j) =
        (filePoints (files.get ⟨j, hj⟩)).map (fun p => (k + j, p)) := by
  induction files with
  | nil => intro k j hj; simp at hj
  | cons f fs ih =>
    intro k j hj
    rw [show taggedFrom k (f :: fs) = tagFile k f ++ taggedFrom (k + 1) fs from rfl,
        List.filter_append]
    cases j with
    | zero =>
      simp only [Nat.add_zero]
      rw [show (f :: fs).get ⟨0, hj⟩ = f from rfl, tagFile, map_tag_filter_self,
          taggedFrom_filter_lt fs (k + 1) k (by omega)]
      simp
    | succ i =>
      have hi : i < fs.length := by simpa using Nat.lt_of_succ_lt_succ (by simpa using hj)
      rw [show (f :: fs).get ⟨i + 1, hj⟩ = fs.get ⟨i, hi⟩ from rfl, tagFile,
          map_tag_filter_ne _ k (k + (i + 1)) (by omega)]
      simp only [show k + (i + 1) = k + 1 + i from by omega]
      rw [ih (k + 1) i hi]
      simp

lemma taggedFrom_map_fst (files : List GPX) :
    ∀ k : ℕ, (taggedFrom k files).map Prod.fst =
      (List.enumFrom k files).flatMap (fun df => List.replicate (filePoints df.2).length df.1) := by
  induction files with
  | nil => intro k; simp [taggedFrom]
  | cons f fs ih =>
    intro k
    simp [taggedFrom, tagFile, List.enumFrom, ih, List.map_map, Function.comp_def]

lemma mem_taggedFrom_index (files : List GPX) :
    ∀ (k : ℕ) (x : Tagged), x ∈ taggedFrom k files →
      ∃ j : ℕ, ∃ hj : j < files.length, x.1 = k + j ∧
        x.2 ∈ filePoints (files.get ⟨j, hj⟩) := by
  induction files with
  | nil => intro k x hx; simp [taggedFrom] at hx
  | cons f fs ih =>
    intro k x hx
    rcases List.mem_append.1 hx with h | h
    · rcases List.mem_map.1 h with ⟨p, hp, he⟩
      exact ⟨0, by simp, by rw [← he]; simp, by rw [← he]; simpa using hp⟩
    · rcases ih (k + 1) x h with ⟨j, hj, h1, h2⟩
      exact ⟨j + 1, by simpa using Nat.succ_lt_succ hj, by omega, h2⟩

lemma accumAux_map_elevation (dist : Dist2D) (l : List Tagged) :
    ∀ (prev : Option RawPoint) (total : ℚ),
      (accumAux dist prev total l).map (fun e => e.elevation) =
        l.map (fun dp => dp.2.elevation) := by
  induction l with
  | nil => intro prev total; simp [accumAux]
  | cons dp rest ih => intro prev total; simp [accumAux, ih]

/-! ### Model of `main`: day grouping, rendering, unit conversion, CLI check -/

/-- Python dict key creation in the grouping loop of `main`: a key is
appended on first sight, later insertions reuse it. -/
def insertKey (ks : List ℕ) (d : ℕ) : List ℕ :=
  if d ∈ ks then ks else ks ++ [d]

/-- The keys of the `daily_points` dict, in insertion order. -/
def dayKeys (epoints : List ElevationPoint) : List ℕ :=
  epoints.foldl (fun ks e => insertKey ks e.day) []

/-- Entry `daily_points[d]`: the emitted points with day `d`, in output order. -/
def dayGroup (epoints : List ElevationPoint) (d : ℕ) : List ElevationPoint :=
  epoints.filter (fun e => e.day == d)

/-- Iteration order `sorted(daily_points.keys())`: the days the render loop iterates over. -/
def renderedDays (epoints : List ElevationPoint) : List ℕ :=
  (dayKeys epoints).insertionSort (fun a b => a ≤ b)

/-- The fixed set of ramps accepted by `--colormap`. -/
inductive Colormap where
  | viridis | plasma | inferno | magma | hsv | nipy_spectral | jet | gist_rainbow
deriving DecidableEq

/-- Call `cm.get_cmap(name, n)` discretizes the named ramp into `n` colors and
`colors(day)` samples it at integer position `day`; modelled abstractly as
the triple (ramp, discretization count, sample position). -/
structure ColorSample where
  ramp : Colormap
  count : ℕ
  pos : ℕ
deriving DecidableEq

/-- Call `cm.get_cmap(args.colormap, n)` applied to a day index. -/
def get_cmap (ramp : Colormap) (count : ℕ) : ℕ → ColorSample :=
  fun day => { ramp := ramp, count := count, pos := day }

/-- The color used for `day` in the render loop:
`colors = cm.get_cmap(args.colormap, len(daily_points))` then `colors(day)`.
`len(daily_points)` is the number of distinct day keys. -/
def dayColor (ramp : Colormap) (epoints : List ElevationPoint) (day : ℕ) : ColorSample :=
  get_cmap ramp (dayKeys epoints).length day

/-- The per-day x/y series drawn by the render loop: the stored distances
and elevations of that day, rescaled to imperial units at render time when
`args.imperial` is set. -/
def renderSeries (use_imperial : Bool) (pts : List ElevationPoint) : List ℚ × List ℚ :=
  let x_points := pts.map (fun e => e.distance)
  let y_points := pts.map (fun e => e.elevation)
  if use_imperial then
    (x_points.map (fun x => x * (0.621371 : ℚ)), y_points.map (fun y => y * (3.28084 : ℚ)))
  else (x_points, y_points)

/-- The file-existence loop of `main`: the first path that does not exist,
scanning in input order (the loop returns on the first failure). -/
def firstMissing {α : Type} (pathExists : α → Bool) : List α → Option α
  | [] => none
  | p :: ps => if pathExists p then firstMissing pathExists ps else some p

/-- The observable outcome of `main` around the existence check. -/
structure RunResult (α : Type) where
  exitCode : ℕ
  missingReported : List α
  ranPipeline : Bool
deriving DecidableEq

/-- Control flow of `main` for input checking: on the first missing file it
prints one error message and returns 1 before any parsing; otherwise the
pipeline runs and `main` returns 0. -/
def mainCheck {α : Type} (pathExists : α → Bool) (gpx_files : List α) : RunResult α :=
  match firstMissing pathExists gpx_files with
  | some p => { exitCode := 1, missingReported := [p], ranPipeline := false }
  | none => { exitCode := 0, missingReported := [], ranPipeline := true }

/-! ### Lemmas about the day-grouping dict -/

lemma mem_insertKey (ks : List ℕ) (d x : ℕ) : x ∈ insertKey ks d ↔ x ∈ ks ∨ x = d := by
  by_cases h : d ∈ ks
  · simp only [insertKey, if_pos h]
    exact ⟨Or.inl, fun hx => hx.elim id (fun he => he ▸ h)⟩
  · simp [insertKey, if_neg h]

lemma mem_foldl_insertKey (l : List ElevationPoint) :
    ∀ (ks : List ℕ) (x : ℕ),
      x ∈ l.foldl (fun ks e => insertKey ks e.day) ks ↔ x ∈ ks ∨ ∃ e ∈ l, e.day = x := by
  induction l with
  | nil => intro ks x; simp
  | cons e es ih =>
    intro ks x
    rw [List.foldl_cons, ih, mem_insertKey]
    simp only [List.mem_cons]
    constructor
    · rintro ((h | h) | ⟨e', he', hd⟩)
      · exact Or.inl h
      · exact Or.inr ⟨e, Or.inl rfl, h.symm⟩
      · exact Or.inr ⟨e', Or.inr he', hd⟩
    · rintro (h | ⟨e', (he' | he'), hd⟩)
      · exact Or.inl (Or.inl h)
      · exact Or.inl (Or.inr (by rw [← hd, he']))
      · exact Or.inr ⟨e', he', hd⟩

lemma mem_dayKeys (epoints : List ElevationPoint) (x : ℕ) :
    x ∈ dayKeys epoints ↔ ∃ e ∈ epoints, e.day = x := by
  rw [dayKeys, mem_foldl_insertKey]
  simp

lemma nodup_insertKey (ks : List ℕ) (d : ℕ) (h : ks.Nodup) : (insertKey ks d).Nodup := by
  by_cases hd : d ∈ ks
  · simpa [insertKey, if_pos hd] using h
  · rw [insertKey, if_neg hd]
    rw [List.nodup_append]
    exact ⟨h, List.nodup_singleton d, by simpa [List.disjoint_singleton] using hd⟩

lemma nodup_foldl_insertKey (l : List ElevationPoint) :
    ∀ ks : List ℕ, ks.Nodup → (l.foldl (fun ks e => insertKey ks e.day) ks).Nodup := by
  induction l with
  | nil => intro ks h; simpa using h
  | cons e es ih => intro ks h; exact ih _ (nodup_insertKey ks e.day h)

lemma nodup_dayKeys (epoints : List ElevationPoint) : (dayKeys epoints).Nodup :=
  nodup_foldl_insertKey epoints [] List.nodup_nil

lemma mem_renderedDays (epoints : List ElevationPoint) (x : ℕ) :
    x ∈ renderedDays epoints ↔ x ∈ dayKeys epoints := by
  rw [renderedDays]
  exact (List.perm_insertionSort _ _).mem_iff

/-! ### Per-day decomposition of the parse output -/

lemma take_get_cons (files : List GPX) (d : ℕ) (hd : d < files.length) :
    files = files.take d ++ files.get ⟨d, hd⟩ :: files.drop (d + 1) := by
  conv_lhs => rw [← List.take_append_drop d files]
  rw [List.drop_eq_getElem_cons hd]
  rfl

lemma taggedPoints_decomp (files : List GPX) (d : ℕ) (hd : d < files.length) :
    taggedPoints files =
      taggedFrom 0 (files.take d) ++
        (tagFile d (files.get ⟨d, hd⟩) ++ taggedFrom (d + 1) (files.drop (d + 1))) := by
  rw [taggedPoints]
  conv_lhs => rw [take_get_cons files d hd]
  rw [taggedFrom_append]
  have hlen : (files.take d).length = d := by
    rw [List.length_take]
    omega
  rw [hlen, show (0 : ℕ) + d = d by omega]
  rfl

lemma parse_filter_day (dist : Dist2D) (files : List GPX) (b : Bool) (d : ℕ)
    (hd : d < files.length) :
    (parse_gpx_files dist files b).filter (fun e => e.day == d) =
      accumAux dist (accumState dist none 0 (taggedFrom 0 (files.take d))).1
        (accumState dist none 0 (taggedFrom 0 (files.take d))).2
        (tagFile d (files.get ⟨d, hd⟩)) := by
  have h1 : ∀ dp ∈ taggedFrom 0 (files.take d), dp.1 ≠ d := by
    intro dp hdp
    have hb := mem_taggedFrom_bounds _ _ _ hdp
    have hlen : (files.take d).length = d := by
      rw [List.length_take]
      omega
    rw [hlen] at hb
    omega
  have h2 : ∀ dp ∈ tagFile d (files.get ⟨d, hd⟩), dp.1 = d := by
    intro dp hdp
    rcases List.mem_map.1 hdp with ⟨p, _, he⟩
    rw [← he]
  have h3 : ∀ dp ∈ taggedFrom (d + 1) (files.drop (d + 1)), dp.1 ≠ d := by
    intro dp hdp
    have hb := mem_taggedFrom_bounds _ _ _ hdp
    omega
  rw [parse_eq_accum, taggedPoints_decomp files d hd, accumAux_append, List.filter_append,
      accumAux_append, List.filter_append,
      accumAux_filter_nil dist d _ h1, accumAux_filter_self dist d _ h2,
      accumAux_filter_nil dist d _ h3]
  simp

/-! ### Concrete sample inputs for the witnesses -/

/-- Sample point A. -/
def pA : RawPoint := { latitude := 1, longitude := 2, elevation := 1000 }

/-- Sample point B. -/
def pB : RawPoint := { latitude := 3, longitude := 4, elevation := 1200 }

/-- Sample point C. -/
def pC : RawPoint := { latitude := 5, longitude := 6, elevation := 1100 }

/-- A sample one-track, one-segment, two-point GPX file. -/
def fileA : GPX := { tracks := [{ segments := [{ points := [pA, pB] }] }] }

/-- A sample single-point GPX file. -/
def fileB : GPX := { tracks := [{ segments := [{ points := [pC] }] }] }

/-- A GPX file that decodes to zero points. -/
def fileEmpty : GPX := { tracks := [] }

/-- A concrete geodesic-distance stand-in: constantly 500 meters. -/
def distConst : Dist2D := fun _ _ => 500

/-! ### Claims -/

/-- C1: for every input file list (and either unit flag), the `distance`
field is non-decreasing along the full emitted sequence: any two consecutive
ElevationPoints `x` at index `i` and `y` at index `i+1` satisfy
`x.distance ≤ y.distance`.  The hypothesis states the defining property of
the external geodesic distance: it is non-negative. -/
theorem C1_distance_monotone (dist : Dist2D) (hdist : ∀ p q, 0 ≤ dist p q)
    (gpx_files : List GPX) (b : Bool) (i : ℕ) (x y : ElevationPoint)
    (hx : (parse_gpx_files dist gpx_files b).get? i = some x)
    (hy : (parse_gpx_files dist gpx_files b).get? (i + 1) = some y) :
    x.distance ≤ y.distance := by
  have hchain : List.Chain' (fun a b => a.distance ≤ b.distance)
      (parse_gpx_files dist gpx_files b) := by
    rw [parse_eq_accum]
    exact accumAux_chain' dist hdist _ _ _
  rcases List.get?_eq_some.1 hx with ⟨hxl, hxe⟩
  rcases List.get?_eq_some.1 hy with ⟨hyl, hye⟩
  have h1 := List.chain'_iff_get.1 hchain i (by omega)
  rw [← hxe, ← hye]
  exact h1

/-- Witness for C1 at a concrete input: the first two points of the sample
two-day input. -/
theorem C1_distance_monotone_witness :
    ({ day := 0, distance := 0, elevation := 1000 } : ElevationPoint).distance ≤
      ({ day := 0, distance := 1/2, elevation := 1200 } : ElevationPoint).distance :=
  C1_distance_monotone distConst (fun _ _ => by norm_num [distConst]) [fileA, fileB] false 0 _ _
    (by rw [parse_eq_accum]
        norm_num [taggedPoints, taggedFrom, tagFile, filePoints, fileA, fileB, pA, pB, pC,
          accumAux, stepTotal, distConst])
    (by rw [parse_eq_accum]
        norm_num [taggedPoints, taggedFrom, tagFile, filePoints, fileA, fileB, pA, pB, pC,
          accumAux, stepTotal, distConst])

/-- C3: for every input in which some file contains at least one point, the
very first emitted ElevationPoint has `distance = 0`. -/
theorem C3_first_distance_zero (dist : Dist2D) (gpx_files : List GPX) (b : Bool)
    (h : ∃ f ∈ gpx_files, filePoints f ≠ []) :
    ∃ e : ElevationPoint,
      (parse_gpx_files dist gpx_files b).head? = some e ∧ e.distance = 0 := by
  rw [parse_eq_accum]
  have hne : taggedPoints gpx_files ≠ [] := by
    rw [taggedPoints, Ne, taggedFrom_eq_nil]
    rcases h with ⟨f, hf, hfp⟩
    intro hall
    exact hfp (hall f hf)
  rcases List.exists_cons_of_ne_nil hne with ⟨dp, rest, hcons⟩
  rw [hcons]
  exact ⟨_, rfl, rfl⟩

/-- Witness for C3 on the sample two-day input. -/
theorem C3_first_distance_zero_witness :
    ∃ e : ElevationPoint,
      (parse_gpx_files distConst [fileA, fileB] false).head? = some e ∧ e.distance = 0 :=
  C3_first_distance_zero distConst [fileA, fileB] false ⟨fileA, by decide, by decide⟩

/-- C4: every emitted ElevationPoint is tagged with the zero-based ordinal
of its source file in the input list: the day column of the output is
exactly the enumeration in which file number `i` contributes one copy of
`i` per point it holds, in input order. -/
theorem C4_day_tagging (dist : Dist2D) (gpx_files : List GPX) (b : Bool) :
    (parse_gpx_files dist gpx_files b).map (fun e => e.day) =
      gpx_files.enum.flatMap (fun df => List.replicate (filePoints df.2).length df.1) := by
  rw [parse_eq_accum, taggedPoints, accumAux_map_day, taggedFrom_map_fst]
  rfl

/-- C5: the ElevationPoints emitted with `day = d` carry exactly the raw
elevations of the points of file `d` (flattened across its tracks and
segments), in original order; in particular their count equals the number of
points of file `d`. -/
theorem C5_day_partition (dist : Dist2D) (gpx_files : List GPX) (b : Bool)
    (d : ℕ) (hd : d < gpx_files.length) :
    ((parse_gpx_files dist gpx_files b).filter (fun e => e.day == d)).map
        (fun e => e.elevation) =
      (filePoints (gpx_files.get ⟨d, hd⟩)).map (fun p => p.elevation) ∧
    ((parse_gpx_files dist gpx_files b).filter (fun e => e.day == d)).length =
      (filePoints (gpx_files.get ⟨d, hd⟩)).length := by
  constructor
  · rw [parse_filter_day dist gpx_files b d hd, accumAux_map_elevation, tagFile,
        List.map_map]
    rfl
  · rw [parse_filter_day dist gpx_files b d hd, accumAux_length, tagFile, List.length_map]

/-- Witness for C5 at day 1 of the sample two-day input. -/
theorem C5_day_partition_witness :
    ((parse_gpx_files distConst [fileA, fileB] false).filter (fun e => e.day == 1)).map
        (fun e => e.elevation) =
      (filePoints ([fileA, fileB].get ⟨1, by decide⟩)).map (fun p => p.elevation) ∧
    ((parse_gpx_files distConst [fileA, fileB] false).filter (fun e => e.day == 1)).length =
      (filePoints ([fileA, fileB].get ⟨1, by decide⟩)).length :=
  C5_day_partition distConst [fileA, fileB] false 1 (by decide)

/-- C7: the stored ElevationPoint sequence does not depend on the
`use_imperial` flag (distances stay in kilometers, elevations in meters),
and the imperial rescaling is a pure per-day render-time map: the rendered
series with `use_imperial = True` is exactly the stored per-day series with
distances multiplied by 0.621371 and elevations multiplied by 3.28084. -/
theorem C7_imperial_render_only (dist : Dist2D) (gpx_files : List GPX) :
    parse_gpx_files dist gpx_files true = parse_gpx_files dist gpx_files false ∧
    ∀ d : ℕ,
      renderSeries true (dayGroup (parse_gpx_files dist gpx_files false) d) =
        (((dayGroup (parse_gpx_files dist gpx_files false) d).map (fun e => e.distance)).map
            (fun x => x * (0.621371 : ℚ)),
         ((dayGroup (parse_gpx_files dist gpx_files false) d).map (fun e => e.elevation)).map
            (fun y => y * (3.28084 : ℚ))) :=
  ⟨rfl, fun d => by simp [renderSeries]⟩

/-- C8: converting a rendered metric series to imperial and dividing back by
the same factors reproduces the metric series exactly (the conversion
factors are exact rational constants). -/
theorem C8_unit_round_trip (pts : List ElevationPoint) :
    ((renderSeries true pts).1.map (fun x => x / (0.621371 : ℚ)),
     (renderSeries true pts).2.map (fun y => y / (3.28084 : ℚ))) = renderSeries false pts := by
  have h1 : (0.621371 : ℚ) ≠ 0 := by norm_num
  have h2 : (3.28084 : ℚ) ≠ 0 := by norm_num
  simp [renderSeries, List.map_map, Function.comp_def, mul_div_cancel_right₀, h1, h2]

/-- If some emitted point has day `d`, then file `d` exists and has at least
one point. -/
lemma day_in_parse_sourced (dist : Dist2D) (gpx_files : List GPX) (b : Bool)
    (e : ElevationPoint) (he : e ∈ parse_gpx_files dist gpx_files b) :
    ∃ j : ℕ, ∃ hj : j < gpx_files.length, e.day = j ∧
      filePoints (gpx_files.get ⟨j, hj⟩) ≠ [] := by
  have hday : e.day ∈ (parse_gpx_files dist gpx_files b).map (fun e => e.day) :=
    List.mem_map_of_mem _ he
  rw [parse_eq_accum, taggedPoints, accumAux_map_day] at hday
  rcases List.mem_map.1 hday with ⟨dp, hdp, hfst⟩
  rcases mem_taggedFrom_index gpx_files 0 dp hdp with ⟨j, hj, hj1, hj2⟩
  exact ⟨j, hj, by omega, List.ne_nil_of_mem hj2⟩

/-- Counterexample to C6 as stated: when the day-0 file decodes to zero
points, the day-grouping dict of `main` contains no key 0 at all — the day
is absent from the mapping, not present as a key mapped to an empty list. -/
theorem C6_counterexample :
    0 ∉ dayKeys (parse_gpx_files distConst [fileEmpty, fileB] false) := by
  decide

/-- C6 (amended): a day whose file yields zero points is omitted from the
day-grouped dict entirely (no key is created), so the render loop never
draws that day; and every day the loop does draw has a nonempty series, so
the `x_points[0]` label indexing cannot fault and the run proceeds. -/
theorem C6_empty_day (dist : Dist2D) (gpx_files : List GPX) (b : Bool) (d : ℕ)
    (hd : d < gpx_files.length)
    (hempty : filePoints (gpx_files.get ⟨d, hd⟩) = []) :
    d ∉ dayKeys (parse_gpx_files dist gpx_files b) ∧
    d ∉ renderedDays (parse_gpx_files dist gpx_files b) ∧
    ∀ day ∈ renderedDays (parse_gpx_files dist gpx_files b),
      dayGroup (parse_gpx_files dist gpx_files b) day ≠ [] := by
  have hkey : d ∉ dayKeys (parse_gpx_files dist gpx_files b) := by
    rw [mem_dayKeys]
    rintro ⟨e, he, hde⟩
    rcases day_in_parse_sourced dist gpx_files b e he with ⟨j, hj, hej, hne⟩
    have hfin : (⟨j, hj⟩ : Fin gpx_files.length) = ⟨d, hd⟩ := by
      simp only [Fin.mk.injEq]
      omega
    rw [hfin, hempty] at hne
    exact hne rfl
  refine ⟨hkey, by rwa [mem_renderedDays], ?_⟩
  intro day hday
  rw [mem_renderedDays, mem_dayKeys] at hday
  rcases hday with ⟨e, he, hde⟩
  have : e ∈ dayGroup (parse_gpx_files dist gpx_files b) day :=
    List.mem_filter.2 ⟨he, by simp [hde]⟩
  exact List.ne_nil_of_mem this

/-- Witness for C6 (amended) on a two-day input whose second file is empty. -/
theorem C6_empty_day_witness :
    1 ∉ dayKeys (parse_gpx_files distConst [fileB, fileEmpty] false) ∧
    1 ∉ renderedDays (parse_gpx_files distConst [fileB, fileEmpty] false) ∧
    ∀ day ∈ renderedDays (parse_gpx_files distConst [fileB, fileEmpty] false),
      dayGroup (parse_gpx_files distConst [fileB, fileEmpty] false) day ≠ [] :=
  C6_empty_day distConst [fileB, fileEmpty] false 1 (by decide) (by decide)

lemma firstMissing_eq_none {α : Type} (pathExists : α → Bool) :
    ∀ l : List α, firstMissing pathExists l = none ↔ ∀ p ∈ l, pathExists p = true := by
  intro l
  induction l with
  | nil => simp [firstMissing]
  | cons p ps ih => by_cases h : pathExists p <;> simp [firstMissing, h, ih]

lemma firstMissing_eq_some {α : Type} (pathExists : α → Bool) :
    ∀ (l : List α) (p : α), firstMissing pathExists l = some p →
      ∃ l₁ l₂, l = l₁ ++ p :: l₂ ∧ pathExists p = false ∧
        ∀ q ∈ l₁, pathExists q = true := by
  intro l
  induction l with
  | nil => intro p h; simp [firstMissing] at h
  | cons x xs ih =>
    intro p h
    by_cases hx : pathExists x
    · rw [show firstMissing pathExists (x :: xs) =
            if pathExists x then firstMissing pathExists xs else some x from rfl,
          if_pos hx] at h
      rcases ih p h with ⟨l₁, l₂, he, hf, hall⟩
      refine ⟨x :: l₁, l₂, by rw [he]; rfl, hf, ?_⟩
      intro q hq
      rcases List.mem_cons.1 hq with h1 | h1
      · exact h1 ▸ hx
      · exact hall q h1
    · rw [show firstMissing pathExists (x :: xs) =
            if pathExists x then firstMissing pathExists xs else some x from rfl,
          if_neg hx] at h
      injection h with h1
      subst h1
      exact ⟨[], xs, rfl, by simpa using hx, by simp⟩

/-- Counterexample to C9 as stated: with two missing paths, only the first
is reported; the second missing path never appears in the report. -/
theorem C9_counterexample :
    (mainCheck (fun _ => false) [0, 1] : RunResult ℕ).missingReported = [0] ∧
    (1 : ℕ) ∉ (mainCheck (fun _ => false) [0, 1] : RunResult ℕ).missingReported ∧
    ((fun _ => false : ℕ → Bool) 1 = false) := by
  decide

/-- C9 (amended): if any input path is missing, `main` reports exactly the
first missing path in input order (later missing paths go unreported),
exits with code 1 and never runs the parsing pipeline; if every path
exists, it exits with code 0 and the pipeline runs. -/
theorem C9_exit_codes {α : Type} (pathExists : α → Bool) (gpx_files : List α) :
    ((∃ p ∈ gpx_files, pathExists p = false) →
      ∃ p l₁ l₂, gpx_files = l₁ ++ p :: l₂ ∧ pathExists p = false ∧
        (∀ q ∈ l₁, pathExists q = true) ∧
        mainCheck pathExists gpx_files =
          { exitCode := 1, missingReported := [p], ranPipeline := false }) ∧
    ((∀ p ∈ gpx_files, pathExists p = true) →
      mainCheck pathExists gpx_files =
        { exitCode := 0, missingReported := [], ranPipeline := true }) := by
  constructor
  · rintro ⟨p0, hp0, hfalse⟩
    cases hfm : firstMissing pathExists gpx_files with
    | none =>
      rw [firstMissing_eq_none] at hfm
      rw [hfm p0 hp0] at hfalse
      cases hfalse
    | some p =>
      rcases firstMissing_eq_some pathExists gpx_files p hfm with ⟨l₁, l₂, he, hf, hall⟩
      exact ⟨p, l₁, l₂, he, hf, hall, by simp [mainCheck, hfm]⟩
  · intro hall
    have hnone : firstMissing pathExists gpx_files = none :=
      (firstMissing_eq_none pathExists gpx_files).2 hall
    simp [mainCheck, hnone]

/-- Witness for C9 (amended) on a concrete two-path input whose first path
is missing. -/
theorem C9_exit_codes_witness :
    ∃ p l₁ l₂, ([0, 1] : List ℕ) = l₁ ++ p :: l₂ ∧ (fun n => n == 2 : ℕ → Bool) p = false ∧
      (∀ q ∈ l₁, (fun n => n == 2 : ℕ → Bool) q = true) ∧
      mainCheck (fun n => n == 2) [0, 1] =
        { exitCode := 1, missingReported := [p], ranPipeline := false } :=
  (C9_exit_codes (fun n => n == 2) [0, 1]).1 ⟨0, by decide, by decide⟩

lemma mem_taggedFrom_of (files : List GPX) :
    ∀ (k j : ℕ) (hj : j < files.length) (p : RawPoint),
      p ∈ filePoints (files.get ⟨j, hj⟩) → (k + j, p) ∈ taggedFrom k files := by
  induction files with
  | nil => intro k j hj p hp; simp at hj
  | cons f fs ih =>
    intro k j hj p hp
    cases j with
    | zero =>
      apply List.mem_append_left
      simp only [Nat.add_zero, tagFile]
      exact List.mem_map_of_mem _ hp
    | succ i =>
      apply List.mem_append_right
      have hi : i < fs.length := by
        simp only [List.length_cons] at hj
        omega
      have hrec := ih (k + 1) i hi p hp
      rw [show k + (i + 1) = k + 1 + i from by omega]
      exact hrec

/-- When every input file has at least one point, the day-grouping dict of
`main` has exactly one key per input file. -/
lemma dayKeys_parse_all_nonempty (dist : Dist2D) (gpx_files : List GPX) (b : Bool)
    (hall : ∀ f ∈ gpx_files, filePoints f ≠ []) :
    (dayKeys (parse_gpx_files dist gpx_files b)).length = gpx_files.length := by
  have hmem : ∀ x : ℕ, x ∈ dayKeys (parse_gpx_files dist gpx_files b) ↔
      x ∈ List.range gpx_files.length := by
    intro x
    rw [mem_dayKeys, List.mem_range]
    constructor
    · rintro ⟨e, he, hde⟩
      rcases day_in_parse_sourced dist gpx_files b e he with ⟨j, hj, hej, _⟩
      omega
    · intro hx
      have hne : filePoints (gpx_files.get ⟨x, hx⟩) ≠ [] :=
        hall _ (List.get_mem gpx_files x hx)
      rcases List.exists_cons_of_ne_nil hne with ⟨p, ps, hcons⟩
      have hp : p ∈ filePoints (gpx_files.get ⟨x, hx⟩) := by
        rw [hcons]
        exact List.mem_cons_self p ps
      have htag := mem_taggedFrom_of gpx_files 0 x hx p hp
      have hfst : x ∈ (taggedPoints gpx_files).map Prod.fst := by
        rw [taggedPoints]
        have := List.mem_map_of_mem Prod.fst htag
        simpa using this
      rw [← accumAux_map_day dist _ none 0, ← parse_eq_accum dist gpx_files b] at hfst
      rcases List.mem_map.1 hfst with ⟨e, he, hde⟩
      exact ⟨e, he, hde⟩
  have hperm := (List.perm_ext_iff_of_nodup (nodup_dayKeys _)
    (List.nodup_range _)).2 hmem
  simpa using hperm.length_eq

/-- Counterexample to C10 as stated: with `K = 3` input files whose middle
file is empty, the ramp is discretized into 2 colors (the dict has 2 keys),
not `K = 3`; day 2 is therefore not sampled at position 2 out of 3. -/
theorem C10_counterexample :
    dayColor Colormap.viridis (parse_gpx_files distConst [fileB, fileEmpty, fileB] false) 2 ≠
      get_cmap Colormap.viridis ([fileB, fileEmpty, fileB] : List GPX).length 2 := by
  decide

/-- C10 (amended): the ramp is discretized into as many colors as there are
distinct day keys in the grouping dict (days whose file has at least one
point).  When every input file has at least one point this count equals the
number `K` of input files, and every rendered day `d` is colored by sampling
the ramp at position `d` out of `K`. -/
theorem C10_day_colors (dist : Dist2D) (gpx_files : List GPX) (b : Bool) (ramp : Colormap)
    (hall : ∀ f ∈ gpx_files, filePoints f ≠ []) :
    (dayKeys (parse_gpx_files dist gpx_files b)).length = gpx_files.length ∧
    ∀ d ∈ renderedDays (parse_gpx_files dist gpx_files b),
      dayColor ramp (parse_gpx_files dist gpx_files b) d =
        get_cmap ramp gpx_files.length d := by
  have hlen := dayKeys_parse_all_nonempty dist gpx_files b hall
  exact ⟨hlen, fun d _ => by rw [dayColor, hlen]⟩

/-- Witness for C10 (amended) on a two-day input with nonempty files. -/
theorem C10_day_colors_witness :
    (dayKeys (parse_gpx_files distConst [fileA, fileB] false)).length =
      ([fileA, fileB] : List GPX).length ∧
    ∀ d ∈ renderedDays (parse_gpx_files distConst [fileA, fileB] false),
      dayColor Colormap.viridis (parse_gpx_files distConst [fileA, fileB] false) d =
        get_cmap Colormap.viridis ([fileA, fileB] : List GPX).length d :=
  C10_day_colors distConst [fileA, fileB] false Colormap.viridis (by decide)

lemma mem_take_drop_get (l : List GPX) (a m : ℕ) (f : GPX)
    (hf : f ∈ (l.drop a).take m) :
    ∃ j : ℕ, ∃ hj : j < l.length, a ≤ j ∧ j < a + m ∧ l.get ⟨j, hj⟩ = f := by
  rcases List.mem_iff_get.1 hf with ⟨⟨i, hi⟩, hget⟩
  have hi' := hi
  rw [List.length_take, List.length_drop] at hi'
  have hlen2 : i < (l.drop a).length := by
    rw [List.length_drop]
    omega
  have hlen3 : a + i < l.length := by omega
  refine ⟨a + i, hlen3, by omega, by omega, ?_⟩
  have h1 : ((l.drop a).take m).get ⟨i, hi⟩ = (l.drop a).get ⟨i, hlen2⟩ := by
    rw [List.get_eq_getElem, List.get_eq_getElem]
    exact List.getElem_take ..
  have h2 : (l.drop a).get ⟨i, hlen2⟩ = l.get ⟨a + i, hlen3⟩ := by
    rw [List.get_eq_getElem, List.get_eq_getElem]
    exact List.getElem_drop ..
  rw [← hget, h1, h2]

lemma take_decomp (l : List GPX) (d' d : ℕ) (hd'd : d' < d) (hd : d < l.length) :
    l.take d = l.take d' ++ l.get ⟨d', lt_trans hd'd hd⟩ ::
      (l.drop (d' + 1)).take (d - d' - 1) := by
  conv_lhs => rw [show d = d' + (d - d') from by omega, List.take_add]
  rw [List.drop_eq_getElem_cons (lt_trans hd'd hd),
      show d - d' = (d - d' - 1) + 1 from by omega, List.take_succ_cons]
  rfl

/-- C2: if day `d` is non-empty and `d'` is the last non-empty day before
it (all days strictly between are empty), the first ElevationPoint of day
`d` has distance equal to the distance of the last ElevationPoint of day
`d'` plus the geodesic distance (converted to kilometers) between the first
raw point of day `d` and the last raw point of day `d'`. -/
theorem C2_boundary_continuity (dist : Dist2D) (gpx_files : List GPX) (b : Bool)
    (d' d : ℕ) (hd'd : d' < d) (hd : d < gpx_files.length)
    (hne : filePoints (gpx_files.get ⟨d, hd⟩) ≠ [])
    (hne' : filePoints (gpx_files.get ⟨d', lt_trans hd'd hd⟩) ≠ [])
    (hmid : ∀ (j : ℕ) (hj : j < gpx_files.length), d' < j → j < d →
      filePoints (gpx_files.get ⟨j, hj⟩) = []) :
    ∃ x y p q,
      ((parse_gpx_files dist gpx_files b).filter (fun e => e.day == d)).head? = some x ∧
      ((parse_gpx_files dist gpx_files b).filter (fun e => e.day == d')).getLast? = some y ∧
      (filePoints (gpx_files.get ⟨d, hd⟩)).head? = some p ∧
      (filePoints (gpx_files.get ⟨d', lt_trans hd'd hd⟩)).getLast? = some q ∧
      x.distance = y.distance + dist p q / 1000 := by
  have hd' : d' < gpx_files.length := lt_trans hd'd hd
  obtain ⟨q, hq⟩ : ∃ q, (filePoints (gpx_files.get ⟨d', hd'⟩)).getLast? = some q := by
    cases hq : (filePoints (gpx_files.get ⟨d', hd'⟩)).getLast? with
    | none => exact absurd (List.getLast?_eq_none_iff.1 hq) hne'
    | some q => exact ⟨q, rfl⟩
  obtain ⟨p, ps, hcons⟩ := List.exists_cons_of_ne_nil hne
  have hq' : (tagFile d' (gpx_files.get ⟨d', hd'⟩)).getLast? = some (d', q) := by
    rw [tagFile, List.getLast?_map, hq]
    rfl
  have hmidnil : taggedFrom (d' + 1) ((gpx_files.drop (d' + 1)).take (d - d' - 1)) = [] := by
    rw [taggedFrom_eq_nil]
    intro f hf
    rcases mem_take_drop_get gpx_files (d' + 1) (d - d' - 1) f hf with ⟨j, hj, h1, h2, hget⟩
    rw [← hget]
    exact hmid j hj (by omega) (by omega)
  have hsplit : taggedFrom 0 (gpx_files.take d) =
      taggedFrom 0 (gpx_files.take d') ++ tagFile d' (gpx_files.get ⟨d', hd'⟩) := by
    rw [take_decomp gpx_files d' d hd'd hd, taggedFrom_append]
    have hlen : (gpx_files.take d').length = d' := by
      rw [List.length_take]
      omega
    rw [hlen, show (0 : ℕ) + d' = d' from by omega,
        show taggedFrom d'
            (gpx_files.get ⟨d', hd'⟩ :: (gpx_files.drop (d' + 1)).take (d - d' - 1)) =
          tagFile d' (gpx_files.get ⟨d', hd'⟩) ++
            taggedFrom (d' + 1) ((gpx_files.drop (d' + 1)).take (d - d' - 1)) from rfl,
        hmidnil]
    simp
  have hstD : accumState dist none 0 (taggedFrom 0 (gpx_files.take d)) =
      accumState dist (accumState dist none 0 (taggedFrom 0 (gpx_files.take d'))).1
        (accumState dist none 0 (taggedFrom 0 (gpx_files.take d'))).2
        (tagFile d' (gpx_files.get ⟨d', hd'⟩)) := by
    rw [hsplit, accumState_append]
  have hprev : (accumState dist none 0 (taggedFrom 0 (gpx_files.take d))).1 = some q := by
    rw [hstD]
    exact accumState_fst dist _ _ _ (d', q) hq'
  have hfilterD := parse_filter_day dist gpx_files b d hd
  have hfilter' := parse_filter_day dist gpx_files b d' hd'
  have hy := accumAux_getLast dist (tagFile d' (gpx_files.get ⟨d', hd'⟩))
    (accumState dist none 0 (taggedFrom 0 (gpx_files.take d'))).1
    (accumState dist none 0 (taggedFrom 0 (gpx_files.take d'))).2 (d', q) hq'
  refine ⟨{ day := d,
            distance := stepTotal dist
              (accumState dist none 0 (taggedFrom 0 (gpx_files.take d))).1
              (accumState dist none 0 (taggedFrom 0 (gpx_files.take d))).2 p,
            elevation := p.elevation },
          { day := d',
            distance := (accumState dist
              (accumState dist none 0 (taggedFrom 0 (gpx_files.take d'))).1
              (accumState dist none 0 (taggedFrom 0 (gpx_files.take d'))).2
              (tagFile d' (gpx_files.get ⟨d', hd'⟩))).2,
            elevation := q.elevation },
          p, q, ?_, ?_, ?_, hq, ?_⟩
  · rw [hfilterD, tagFile, hcons, List.map_cons]
    rfl
  · rw [hfilter']
    exact hy
  · rw [hcons]
    rfl
  · show stepTotal dist (accumState dist none 0 (taggedFrom 0 (gpx_files.take d))).1
        (accumState dist none 0 (taggedFrom 0 (gpx_files.take d))).2 p = _
    rw [hprev]
    show (accumState dist none 0 (taggedFrom 0 (gpx_files.take d))).2 + dist p q / 1000 = _
    rw [hstD]

/-- Witness for C2 on a three-day input whose middle file is empty: day 2
continues from the last point of day 0. -/
theorem C2_boundary_continuity_witness :
    ∃ x y p q,
      ((parse_gpx_files distConst [fileB, fileEmpty, fileB] false).filter
          (fun e => e.day == 2)).head? = some x ∧
      ((parse_gpx_files distConst [fileB, fileEmpty, fileB] false).filter
          (fun e => e.day == 0)).getLast? = some y ∧
      (filePoints (([fileB, fileEmpty, fileB] : List GPX).get ⟨2, by decide⟩)).head? =
        some p ∧
      (filePoints (([fileB, fileEmpty, fileB] : List GPX).get ⟨0, by decide⟩)).getLast? =
        some q ∧
      x.distance = y.distance + distConst p q / 1000 :=
  C2_boundary_continuity distConst [fileB, fileEmpty, fileB] false 0 2 (by decide) (by decide)
    (by decide) (by decide) (by decide)
